import Mathlib

/-!
# Verification of tm-load-test components

Shallow embedding of the kvstore load-testing client
(`pkg/loadtest/client_kvstore.go`), the logging package's constructor
(`internal/logging`), the integration-test statistics parser and
tolerance check, and the coordinator's report-merge rule (modelled from
the spec, its source not being part of this snapshot).  Machine integers
(`int`, `uint64`) are modelled as `Int`/`Nat`: every quantity involved
stays far below 2^63, so no wrap-around can occur in the original code
on the inputs considered.
-/

namespace LoadTest

/-! ## kvstore client (`pkg/loadtest/client_kvstore.go`) -/

/-- `KVStoreClientIDLen int = 5`. -/
def KVStoreClientIDLen : Nat := 5

/-- `kvstoreMinValueLen int = 1`. -/
def kvstoreMinValueLen : Nat := 1

/-- The table `kvstoreMaxTxsByKeySuffixLen`, entries exactly as written in
the Go source (indices 0 through 15). -/
def kvstoreMaxTxsByKeySuffixLen : List Nat :=
  [0, 62, 1891, 37820, 557845, 6471002, 61474519, 491796152,
   3381098545, 20286591270, 107518933731, 508271323092,
   2160153123141, 8308281242850, 29078984349975, 93052749919920]

/-- The loop body of `requiredKVStoreSuffixLen`: `l` is the running index of
the `range` loop, the list argument the remaining table entries.  `none`
stands for the `error` return values. -/
def requiredKVStoreSuffixLenAux (maxTxCount : Nat) : Nat → List Nat → Option Nat
  | _, [] => none
  | l, maxTxs :: rest =>
    if maxTxCount < maxTxs then
      if l + 1 > kvstoreMaxTxsByKeySuffixLen.length then none
      else some (l + 1)
    else requiredKVStoreSuffixLenAux maxTxCount (l + 1) rest

/-- `requiredKVStoreSuffixLen(maxTxCount uint64) (int, error)`: scans the
table for the first entry strictly above `maxTxCount` and returns that
index plus one; an error (here `none`) if the table is exhausted. -/
def requiredKVStoreSuffixLen (maxTxCount : Nat) : Option Nat :=
  requiredKVStoreSuffixLenAux maxTxCount 0 kvstoreMaxTxsByKeySuffixLen

/-- The same scan with the (claimed unreachable) in-loop bounds check
removed; used to state that the in-loop error branch never fires. -/
def requiredKVStoreSuffixLenNoGuardAux (maxTxCount : Nat) : Nat → List Nat → Option Nat
  | _, [] => none
  | l, maxTxs :: rest =>
    if maxTxCount < maxTxs then some (l + 1)
    else requiredKVStoreSuffixLenNoGuardAux maxTxCount (l + 1) rest

/-- `requiredKVStoreSuffixLen` without the in-loop guard. -/
def requiredKVStoreSuffixLenNoGuard (maxTxCount : Nat) : Option Nat :=
  requiredKVStoreSuffixLenNoGuardAux maxTxCount 0 kvstoreMaxTxsByKeySuffixLen

/-- The slice of `loadtest.Config` relevant to the kvstore client.
`Size` is a Go `int`.  The method `Config.MaxTxsPerEndpoint()` is defined
outside this snapshot; its (uint64) result is modelled as an abstract
field, which is exactly how `ValidateConfig` and `NewClient` consume it. -/
structure Config where
  Size : Int
  maxTxsPerEndpoint : Nat

/-- `KVStoreClientFactory.ValidateConfig`.  `none` models an error return,
`some ()` the nil-error return. -/
def ValidateConfig (cfg : Config) : Option Unit :=
  if cfg.maxTxsPerEndpoint < 1 then none
  else
    match requiredKVStoreSuffixLen cfg.maxTxsPerEndpoint with
    | none => none
    | some minKeySuffixLen =>
      let minTxSize : Int :=
        (KVStoreClientIDLen : Int) + minKeySuffixLen + 1 + kvstoreMinValueLen
      if cfg.Size < minTxSize then none else some ()

/-- The fields of `KVStoreClient`.  `valueLen` is a Go `int` and may be
negative for unvalidated configs, hence `Int`. -/
structure KVStoreClient where
  keyPrefix : List Char
  keySuffixLen : Nat
  valueLen : Int

/-- `KVStoreClientFactory.NewClient`.  `randStr` stands for the Tendermint
`common.RandStr` helper, which is outside this snapshot; per the spec it
draws a fresh alphanumeric string of the requested length, so it is
passed in as an arbitrary length-indexed character source. -/
def NewClient (randStr : Nat → List Char) (cfg : Config) : Option KVStoreClient :=
  let keyPrefix := randStr KVStoreClientIDLen
  match requiredKVStoreSuffixLen cfg.maxTxsPerEndpoint with
  | none => none
  | some keySuffixLen =>
    let keyLen := keyPrefix.length + keySuffixLen
    some { keyPrefix := keyPrefix
           keySuffixLen := keySuffixLen
           valueLen := cfg.Size - (keyLen : Int) - 1 }

/-- `KVStoreClient.GenerateTx`: `keyPrefix ++ randStr(keySuffixLen) ++ "="
++ randStr(valueLen)`.  `randStr` takes a Go `int`; its call sites here
receive a non-negative length, modelled with `Int.toNat`. -/
def GenerateTx (randStr : Nat → List Char) (c : KVStoreClient) : List Char :=
  let k := c.keyPrefix ++ randStr c.keySuffixLen
  let v := randStr c.valueLen.toNat
  k ++ (['='] ++ v)

/-- `GenerateTx` with the receiver threaded through explicitly: the method
body contains no assignment to any field of `c`, so the outgoing state is
the incoming one. -/
def GenerateTxS (randStr : Nat → List Char) (c : KVStoreClient) :
    List Char × KVStoreClient :=
  (GenerateTx randStr c, c)

/-! ### Lemmas about the suffix-length scan -/

/-- On a list short enough that the in-loop guard cannot fire, the scan
agrees with its guard-free variant. -/
theorem suffixScan_eq_noGuard (M : Nat) (L : List Nat) : ∀ l : Nat,
    l + L.length ≤ kvstoreMaxTxsByKeySuffixLen.length →
    requiredKVStoreSuffixLenAux M l L = requiredKVStoreSuffixLenNoGuardAux M l L := by
  induction L with
  | nil => intro l _; rfl
  | cons t rest ih =>
    intro l hl
    simp only [requiredKVStoreSuffixLenAux, requiredKVStoreSuffixLenNoGuardAux]
    by_cases h : M < t
    · rw [if_pos h, if_pos h, if_neg]
      simp only [List.length_cons] at hl
      omega
    · rw [if_neg h, if_neg h]
      apply ih
      simp only [List.length_cons] at hl
      omega

/-- The guard-free scan returns an error exactly when no table entry
strictly exceeds the requested count. -/
theorem suffixScanNoGuard_none_iff (M : Nat) (L : List Nat) : ∀ l : Nat,
    (requiredKVStoreSuffixLenNoGuardAux M l L = none ↔ ∀ t ∈ L, t ≤ M) := by
  induction L with
  | nil => intro l; simp [requiredKVStoreSuffixLenNoGuardAux]
  | cons t rest ih =>
    intro l
    simp only [requiredKVStoreSuffixLenNoGuardAux, List.mem_cons]
    by_cases h : M < t
    · rw [if_pos h]
      simp only [reduceCtorEq, false_iff]
      intro hall
      have := hall t (Or.inl rfl)
      omega
    · rw [if_neg h]
      rw [ih (l + 1)]
      constructor
      · intro hall t' ht'
        rcases ht' with rfl | ht'
        · omega
        · exact hall t' ht'
      · intro hall t' ht'
        exact hall t' (Or.inr ht')

/-- A successful guard-free scan returns one more than the position of the
first entry strictly above the requested count. -/
theorem suffixScanNoGuard_some (M : Nat) (L : List Nat) : ∀ l r : Nat,
    requiredKVStoreSuffixLenNoGuardAux M l L = some r →
    ∃ i, i < L.length ∧ r = l + i + 1 ∧ M < L.getD i 0 ∧
      ∀ j < i, L.getD j 0 ≤ M := by
  induction L with
  | nil => intro l r h; simp [requiredKVStoreSuffixLenNoGuardAux] at h
  | cons t rest ih =>
    intro l r h
    simp only [requiredKVStoreSuffixLenNoGuardAux] at h
    by_cases hc : M < t
    · rw [if_pos hc] at h
      obtain rfl : r = l + 1 := (Option.some_inj.mp h).symm
      exact ⟨0, by simp, by omega, by simpa using hc, fun j hj => by omega⟩
    · rw [if_neg hc] at h
      obtain ⟨i, hi, hr, hM, hall⟩ := ih (l + 1) r h
      refine ⟨i + 1, by simpa using Nat.succ_lt_succ hi, by omega, by simpa using hM, ?_⟩
      intro j hj
      cases j with
      | zero => simpa using by omega
      | succ j' =>
        have := hall j' (by omega)
        simpa using this

/-- The table's entries are all bounded by its last entry. -/
theorem kvstoreTable_all_le_iff (M : Nat) :
    (∀ t ∈ kvstoreMaxTxsByKeySuffixLen, t ≤ M) ↔ 93052749919920 ≤ M := by
  constructor
  · intro h
    exact h 93052749919920 (by simp [kvstoreMaxTxsByKeySuffixLen])
  · intro h t ht
    simp only [kvstoreMaxTxsByKeySuffixLen, List.mem_cons, List.not_mem_nil,
      or_false] at ht
    rcases ht with rfl|rfl|rfl|rfl|rfl|rfl|rfl|rfl|rfl|rfl|rfl|rfl|rfl|rfl|rfl|rfl <;>
      omega

/-- The scan (with guard) errors exactly on counts at or beyond the last
table entry. -/
theorem requiredKVStoreSuffixLen_none_iff (M : Nat) :
    requiredKVStoreSuffixLen M = none ↔ 93052749919920 ≤ M := by
  rw [requiredKVStoreSuffixLen,
    suffixScan_eq_noGuard M kvstoreMaxTxsByKeySuffixLen 0 (by simp),
    suffixScanNoGuard_none_iff, kvstoreTable_all_le_iff]

/-- The scan succeeds exactly below the last table entry. -/
theorem requiredKVStoreSuffixLen_isSome_iff (M : Nat) :
    (requiredKVStoreSuffixLen M).isSome ↔ M < 93052749919920 := by
  constructor
  · intro h
    by_contra hc
    rw [Nat.not_lt] at hc
    rw [(requiredKVStoreSuffixLen_none_iff M).mpr hc] at h
    simp at h
  · intro h
    by_contra hc
    have hnone : requiredKVStoreSuffixLen M = none :=
      Option.not_isSome_iff_eq_none.mp (by simpa using hc)
    have := (requiredKVStoreSuffixLen_none_iff M).mp hnone
    omega

/-- A successful scan returns one more than the position of the first
table entry strictly above the requested count; the result lies in
[1, 16]. -/
theorem requiredKVStoreSuffixLen_some_spec (M r : Nat)
    (h : requiredKVStoreSuffixLen M = some r) :
    1 ≤ r ∧ r ≤ 16 ∧ M < kvstoreMaxTxsByKeySuffixLen.getD (r - 1) 0 ∧
      ∀ j < r - 1, kvstoreMaxTxsByKeySuffixLen.getD j 0 ≤ M := by
  rw [requiredKVStoreSuffixLen,
    suffixScan_eq_noGuard M kvstoreMaxTxsByKeySuffixLen 0 (by simp)] at h
  obtain ⟨i, hi, hr, hM, hall⟩ := suffixScanNoGuard_some M kvstoreMaxTxsByKeySuffixLen 0 r h
  have hlen : kvstoreMaxTxsByKeySuffixLen.length = 16 := by
    simp [kvstoreMaxTxsByKeySuffixLen]
  rw [hlen] at hi
  refine ⟨by omega, by omega, ?_, ?_⟩
  · have he : r - 1 = i := by omega
    rw [he]
    exact hM
  · intro j hj
    exact hall j (by omega)

/-! ### Claim theorems for the kvstore client -/

/-- C9: `requiredKVStoreSuffixLen` succeeds iff its argument is strictly
below 93052749919920 (the last table entry); every successful result lies
between 1 and 16; and the error branch inside the loop (the
`l+1 > len(table)` guard) is unreachable: the function agrees everywhere
with the guard-free scan. -/
theorem requiredKVStoreSuffixLen_safety :
    (∀ M, (requiredKVStoreSuffixLen M).isSome ↔ M < 93052749919920) ∧
    (∀ M r, requiredKVStoreSuffixLen M = some r → 1 ≤ r ∧ r ≤ 16) ∧
    (∀ M, requiredKVStoreSuffixLen M = requiredKVStoreSuffixLenNoGuard M) := by
  refine ⟨requiredKVStoreSuffixLen_isSome_iff, fun M r h => ?_, fun M => ?_⟩
  · have := requiredKVStoreSuffixLen_some_spec M r h
    omega
  · exact suffixScan_eq_noGuard M kvstoreMaxTxsByKeySuffixLen 0 (by simp)

/-- Witness for `requiredKVStoreSuffixLen_safety` at `M = 100`, `r = 3`. -/
theorem requiredKVStoreSuffixLen_safety_witness :
    1 ≤ 3 ∧ (3:Nat) ≤ 16 :=
  requiredKVStoreSuffixLen_safety.2.1 100 3 (by decide)

/-- C1: for a config whose maximum transaction count per endpoint is at
least 1 and within the table's range, `ValidateConfig` accepts exactly
when the payload size is at least prefix length (5) + computed minimum
key-suffix length + 1 (the `=` separator) + minimum value length (1);
otherwise it errors. -/
theorem ValidateConfig_iff (cfg : Config)
    (h1 : 1 ≤ cfg.maxTxsPerEndpoint)
    (h2 : cfg.maxTxsPerEndpoint < 93052749919920) :
    KVStoreClientIDLen = 5 ∧ kvstoreMinValueLen = 1 ∧
    ∃ minKeySuffixLen,
      requiredKVStoreSuffixLen cfg.maxTxsPerEndpoint = some minKeySuffixLen ∧
      ((ValidateConfig cfg).isSome ↔
        (KVStoreClientIDLen : Int) + minKeySuffixLen + 1 + kvstoreMinValueLen ≤ cfg.Size) ∧
      (¬ (KVStoreClientIDLen : Int) + minKeySuffixLen + 1 + kvstoreMinValueLen ≤ cfg.Size →
        ValidateConfig cfg = none) := by
  refine ⟨rfl, rfl, ?_⟩
  have hs : (requiredKVStoreSuffixLen cfg.maxTxsPerEndpoint).isSome :=
    (requiredKVStoreSuffixLen_isSome_iff _).mpr h2
  obtain ⟨l, hl⟩ := Option.isSome_iff_exists.mp hs
  refine ⟨l, hl, ?_, ?_⟩ <;> unfold ValidateConfig <;> rw [if_neg (by omega), hl]
  · by_cases h : cfg.Size <
        (KVStoreClientIDLen : Int) + l + 1 + kvstoreMinValueLen
    · simp only [h, if_true, Option.isSome_none, Bool.false_eq_true, false_iff]
      omega
    · simp only [h, if_false, Option.isSome_some, true_iff]
      omega
  · intro hsz
    have h : cfg.Size < (KVStoreClientIDLen : Int) + l + 1 + kvstoreMinValueLen := by
      omega
    simp only [h, if_true]

/-- Witness for `ValidateConfig_iff` at a concrete accepted config. -/
theorem ValidateConfig_iff_witness :
    (ValidateConfig ⟨100, 50⟩).isSome ↔
      (KVStoreClientIDLen : Int) + 2 + 1 + kvstoreMinValueLen ≤ (100:Int) := by
  obtain ⟨-, -, l, hl, hiff, -⟩ := ValidateConfig_iff ⟨100, 50⟩ (by decide) (by decide)
  have h50 : requiredKVStoreSuffixLen 50 = some 2 := by decide
  rw [h50] at hl
  have : l = 2 := (Option.some_inj.mp hl).symm
  rw [this] at hiff
  exact hiff

/-- C4: past the table's range, `requiredKVStoreSuffixLen` errors, and
both `ValidateConfig` and `NewClient` fail with that validation error
rather than proceeding. -/
theorem requiredKVStoreSuffixLen_overflow (M : Nat) (hM : 93052749919920 ≤ M) :
    requiredKVStoreSuffixLen M = none ∧
    ∀ (cfg : Config) (randStr : Nat → List Char), cfg.maxTxsPerEndpoint = M →
      ValidateConfig cfg = none ∧ NewClient randStr cfg = none := by
  have hnone : requiredKVStoreSuffixLen M = none :=
    (requiredKVStoreSuffixLen_none_iff M).mpr hM
  refine ⟨hnone, fun cfg randStr hcfg => ⟨?_, ?_⟩⟩
  · unfold ValidateConfig
    rw [hcfg, if_neg (by omega), hnone]
  · unfold NewClient
    rw [hcfg, hnone]

/-- Witness for `requiredKVStoreSuffixLen_overflow` at the first
out-of-range count. -/
theorem requiredKVStoreSuffixLen_overflow_witness :
    requiredKVStoreSuffixLen 93052749919920 = none ∧
    ValidateConfig ⟨1000, 93052749919920⟩ = none ∧
    NewClient (fun n => List.replicate n 'a') ⟨1000, 93052749919920⟩ = none := by
  have h := requiredKVStoreSuffixLen_overflow 93052749919920 (by omega)
  exact ⟨h.1, (h.2 ⟨1000, 93052749919920⟩ (fun n => List.replicate n 'a') rfl).1,
    (h.2 ⟨1000, 93052749919920⟩ (fun n => List.replicate n 'a') rfl).2⟩

/-- C2 counterexample: table entry 2 is 1891 = C(62,2), not 62^2 = 3844,
and `requiredKVStoreSuffixLen 2000` returns 4 although the smallest
length whose power-of-62 bound exceeds 2000 is 2. -/
theorem kvstoreTable_pow_counterexample :
    kvstoreMaxTxsByKeySuffixLen.getD 2 0 = 1891 ∧ 62 ^ 2 = 3844 ∧
    kvstoreMaxTxsByKeySuffixLen.getD 2 0 ≠ 62 ^ 2 ∧
    requiredKVStoreSuffixLen 2000 = some 4 ∧
    2000 < 62 ^ 2 ∧ ¬ 2000 < 62 ^ 1 ∧
    requiredKVStoreSuffixLen 2000 ≠ some 2 := by
  decide

/-- C2 amended: for suffix lengths 1 through 15 the table entry is the
binomial coefficient C(62, l) (entry 0 is 0, not C(62,0) = 1), and
`requiredKVStoreSuffixLen M` returns one more than the index of the first
table entry strictly exceeding `M`. -/
theorem kvstoreTable_binomial (l : Nat) (h1 : 1 ≤ l) (h2 : l ≤ 15) :
    kvstoreMaxTxsByKeySuffixLen.getD l 0 = Nat.choose 62 l ∧
    kvstoreMaxTxsByKeySuffixLen.getD 0 0 = 0 ∧
    ∀ M r, requiredKVStoreSuffixLen M = some r →
      1 ≤ r ∧ r ≤ 16 ∧ M < kvstoreMaxTxsByKeySuffixLen.getD (r - 1) 0 ∧
      ∀ j < r - 1, kvstoreMaxTxsByKeySuffixLen.getD j 0 ≤ M := by
  refine ⟨?_, rfl, fun M r h => requiredKVStoreSuffixLen_some_spec M r h⟩
  interval_cases l <;> decide

/-- Witness for `kvstoreTable_binomial` at `l = 5`. -/
theorem kvstoreTable_binomial_witness :
    kvstoreMaxTxsByKeySuffixLen.getD 5 0 = Nat.choose 62 5 :=
  (kvstoreTable_binomial 5 (by decide) (by decide)).1

/-- C5: on a validated config, every generated payload has exactly the
configured size and decomposes as the 5-byte client-ID prefix, a key
suffix of the computed length, one `=` separator, and a value of length
`Size - keyLen - 1 ≥ 1`. -/
theorem GenerateTx_structure (randStr : Nat → List Char)
    (hr : ∀ n, (randStr n).length = n) (cfg : Config)
    (hv : (ValidateConfig cfg).isSome) (c : KVStoreClient)
    (hc : NewClient randStr cfg = some c) :
    ((GenerateTx randStr c).length : Int) = cfg.Size ∧
    ∃ sfx val, GenerateTx randStr c = c.keyPrefix ++ sfx ++ ['='] ++ val ∧
      c.keyPrefix.length = KVStoreClientIDLen ∧ sfx.length = c.keySuffixLen ∧
      (val.length : Int) =
        cfg.Size - ((KVStoreClientIDLen : Int) + c.keySuffixLen) - 1 ∧
      1 ≤ val.length := by
  unfold ValidateConfig at hv
  by_cases h0 : cfg.maxTxsPerEndpoint < 1
  · rw [if_pos h0] at hv
    simp at hv
  rw [if_neg h0] at hv
  unfold NewClient at hc
  cases hreq : requiredKVStoreSuffixLen cfg.maxTxsPerEndpoint with
  | none =>
    rw [hreq] at hv
    simp at hv
  | some l =>
    rw [hreq] at hv hc
    simp only [] at hv hc
    by_cases hsz : cfg.Size <
        (KVStoreClientIDLen : Int) + l + 1 + kvstoreMinValueLen
    · rw [if_pos hsz] at hv
      simp at hv
    rw [if_neg hsz] at hv
    obtain rfl : ({ keyPrefix := randStr KVStoreClientIDLen
                    keySuffixLen := l
                    valueLen := cfg.Size -
                      (((randStr KVStoreClientIDLen).length + l : Nat) : Int) - 1 }
        : KVStoreClient) = c := Option.some_inj.mp hc
    have hpl : (randStr KVStoreClientIDLen).length = KVStoreClientIDLen :=
      hr KVStoreClientIDLen
    have hID : KVStoreClientIDLen = 5 := rfl
    have hmv : kvstoreMinValueLen = 1 := rfl
    rw [hID, hmv] at hsz
    have hvpos : (1:Int) ≤ cfg.Size - ((5 + l : Nat) : Int) - 1 := by
      push_cast
      push_cast at hsz
      omega
    constructor
    · simp only [GenerateTx, List.length_append, List.length_cons,
        List.length_nil, hr, hpl, hID]
      push_cast at hvpos ⊢
      omega
    · refine ⟨randStr l, randStr (cfg.Size -
          (((randStr KVStoreClientIDLen).length + l : Nat) : Int) - 1).toNat,
        ?_, hpl, hr l, ?_, ?_⟩
      · simp only [GenerateTx, List.append_assoc]
      · simp only [hr, hpl, hID]
        push_cast at hvpos ⊢
        omega
      · simp only [hr, hpl, hID]
        push_cast at hvpos ⊢
        omega

/-- Witness for `GenerateTx_structure` at a concrete validated config. -/
theorem GenerateTx_structure_witness :
    ((GenerateTx (fun n => List.replicate n 'a')
      { keyPrefix := List.replicate 5 'a', keySuffixLen := 2, valueLen := 2 }).length
      : Int) = (10:Int) :=
  (GenerateTx_structure (fun n => List.replicate n 'a')
    (fun n => List.length_replicate n 'a') ⟨10, 1⟩ (by decide)
    { keyPrefix := List.replicate 5 'a', keySuffixLen := 2, valueLen := 2 }
    (by rfl)).1

/-- C6: `GenerateTx` is a pure function of the client: with the receiver
threaded through explicitly, the outgoing client is the incoming one
field for field, and the produced payload is the function of the client
alone (no channel, socket or other effect appears in the embedding). -/
theorem GenerateTxS_frame (randStr : Nat → List Char) (c : KVStoreClient) :
    (GenerateTxS randStr c).2.keyPrefix = c.keyPrefix ∧
    (GenerateTxS randStr c).2.keySuffixLen = c.keySuffixLen ∧
    (GenerateTxS randStr c).2.valueLen = c.valueLen ∧
    (GenerateTxS randStr c).1 = GenerateTx randStr c :=
  ⟨rfl, rfl, rfl, rfl⟩

end LoadTest

namespace Logging

/-! ## logging package (`internal/logging/logrus.go`) -/

/-- A Go `interface{}` value as it flows through the logging package: a
string, a boxed `[]interface{}` (as produced by forwarding a variadic
slice as one argument), or anything else. -/
inductive GoValue where
  | str : String → GoValue
  | arr : List GoValue → GoValue
  | other : GoValue

/-- Go-map insertion on an association list: a later write to an existing
key replaces the stored value. -/
def insertKV (m : List (String × GoValue)) (k : String) (v : GoValue) :
    List (String × GoValue) :=
  if m.any (fun p => p.1 = k) then
    m.map (fun p => if p.1 = k then (k, v) else p)
  else m ++ [(k, v)]

/-- The loop of `serializeKVPairs` (`for i := 0; i < len(kvpairs); i += 2`):
consumes the slice two elements at a time, asserting the first of each
pair to `string` (`none` models the panic of a failed type assertion). -/
def serializeKVPairsAux (res : List (String × GoValue)) :
    List GoValue → Option (List (String × GoValue))
  | [] => some res
  | [_] => none
  | k :: v :: rest =>
    match k with
    | GoValue.str ks => serializeKVPairsAux (insertKV res ks v) rest
    | _ => none

/-- `serializeKVPairs(kvpairs ...interface{}) map[string]interface{}`:
the loop body runs only when the argument list has even length;
otherwise the function returns the freshly made empty map. -/
def serializeKVPairs (kvpairs : List GoValue) : Option (List (String × GoValue)) :=
  if kvpairs.length % 2 = 0 then serializeKVPairsAux [] kvpairs
  else some []

/-- The fields of `LogrusLogger` that `NewLogrusLogger` initializes (the
`logrus.Entry` and mutex belong to external packages and carry no data
relevant here). -/
structure LogrusLogger where
  ctx : String
  fields : List (String × GoValue)
  pushedFieldSets : List (List (String × GoValue))

/-- `NewLogrusLogger(ctx string, kvpairs ...interface{})`: the variadic
slice is passed to `serializeKVPairs` WITHOUT spreading (`kvpairs`, not
`kvpairs...`), so `serializeKVPairs` receives a single-element argument
list whose one element is the boxed slice. -/
def NewLogrusLogger (ctx : String) (kvpairs : List GoValue) : Option LogrusLogger :=
  (serializeKVPairs [GoValue.arr kvpairs]).map
    (fun f => { ctx := ctx, fields := f, pushedFieldSets := [] })

/-- C10: `NewLogrusLogger` always produces a logger with an empty fields
map: the kvpairs argument arrives at `serializeKVPairs` as a one-element
(odd-length) list, and `serializeKVPairs` returns the empty map on every
odd-length input, so the supplied pairs are never recorded. -/
theorem NewLogrusLogger_fields_empty :
    (∀ (ctx : String) (kvpairs : List GoValue),
      NewLogrusLogger ctx kvpairs =
        some { ctx := ctx, fields := [], pushedFieldSets := [] }) ∧
    (∀ l : List GoValue, l.length % 2 = 1 → serializeKVPairs l = some []) := by
  have hodd : ∀ l : List GoValue, l.length % 2 = 1 → serializeKVPairs l = some [] := by
    intro l hl
    unfold serializeKVPairs
    rw [if_neg (by omega)]
  refine ⟨fun ctx kvpairs => ?_, hodd⟩
  unfold NewLogrusLogger
  rw [hodd [GoValue.arr kvpairs] (by simp)]
  rfl

/-- Witness for `NewLogrusLogger_fields_empty` on an odd-length list. -/
theorem NewLogrusLogger_fields_empty_witness :
    serializeKVPairs [GoValue.str "k", GoValue.str "v", GoValue.other] = some [] :=
  NewLogrusLogger_fields_empty.2
    [GoValue.str "k", GoValue.str "v", GoValue.other] (by decide)

end Logging

namespace ITest

/-! ## Integration-test statistics (`loadtest_integration_test.go`) -/

/-- `loadtest.AggregateStats` as read back by the integration test.  The
three `float64` fields are kept at an abstract type `F` (instantiated
with `ℚ` where arithmetic is needed), the integer fields at `Int`. -/
structure AggregateStats (F : Type) where
  TotalTxs : Int
  TotalTimeSeconds : F
  TotalBytes : Int
  AvgTxRate : F
  AvgDataRate : F

/-- `floatsEqualWithTolerance(a, b, tolerance float64) bool`:
`math.Abs(a-b) < tolerance`, real arithmetic modelled over `ℚ`. -/
def floatsEqualWithTolerance (a b tolerance : ℚ) : Bool :=
  decide (|a - b| < tolerance)

/-- The average-transaction-rate check the integration test performs on a
finalized `AggregateStats`. -/
def txRateConsistent (s : AggregateStats ℚ) : Bool :=
  floatsEqualWithTolerance s.AvgTxRate ((s.TotalTxs : ℚ) / s.TotalTimeSeconds)
    ((s.TotalTxs : ℚ) / 1000)

/-- The average-data-rate check the integration test performs on a
finalized `AggregateStats`. -/
def dataRateConsistent (s : AggregateStats ℚ) : Bool :=
  floatsEqualWithTolerance s.AvgDataRate ((s.TotalBytes : ℚ) / s.TotalTimeSeconds)
    ((s.TotalBytes : ℚ) / 1000)

/-- C8: the derived-rate consistency check accepts the average transaction
rate exactly when `|AvgTxRate - TotalTxs/TotalTimeSeconds| < TotalTxs/1000`
and the average data rate exactly when
`|AvgDataRate - TotalBytes/TotalTimeSeconds| < TotalBytes/1000`: the
tolerance is the respective total divided by 1000 and the comparison is
strict. -/
theorem rateConsistency_iff (s : AggregateStats ℚ) (hpos : 0 < s.TotalTimeSeconds) :
    (txRateConsistent s = true ↔
      |s.AvgTxRate - (s.TotalTxs : ℚ) / s.TotalTimeSeconds| < (s.TotalTxs : ℚ) / 1000) ∧
    (dataRateConsistent s = true ↔
      |s.AvgDataRate - (s.TotalBytes : ℚ) / s.TotalTimeSeconds| < (s.TotalBytes : ℚ) / 1000) := by
  constructor <;>
    simp [txRateConsistent, dataRateConsistent, floatsEqualWithTolerance]

/-- Witness for `rateConsistency_iff` on a concrete finalized record. -/
theorem rateConsistency_iff_witness :
    txRateConsistent ⟨50, 1, 5000, 50, 5000⟩ = true ↔
      |(50:ℚ) - (50:ℚ) / 1| < (50:ℚ) / 1000 := by
  have h := (rateConsistency_iff ⟨50, 1, 5000, 50, 5000⟩ (by norm_num)).1
  simpa using h

end ITest

namespace Coordinator

/-! ## Coordinator report merge (modelled from the spec) -/

/-- A `StatsReport` as sent by a worker: cumulative requests and bytes. -/
structure StatsReport where
  txs : Nat
  bytes : Nat

/-- The counters the coordinator last recorded for one worker, plus its
failure mark. -/
structure WorkerRecord where
  txs : Nat
  bytes : Nat
  failed : Bool

/-- The coordinator's live aggregate counters. -/
structure LiveAggregate where
  totalTxs : Nat
  totalBytes : Nat

/-- Modelled from the spec: the Coordinator's `Running`-state merge of a
single worker's report — the coordinator source is not part of this
snapshot.  Per the spec, "a report's counters must be ≥ the previously
recorded counters for that worker, else it is a protocol violation and
the offending worker is treated as failed"; an accepted report replaces
the recorded counters and adds the delta to the live aggregate.  The
returned `Bool` is `true` iff the report was accepted. -/
def mergeReport (w : WorkerRecord) (agg : LiveAggregate) (r : StatsReport) :
    WorkerRecord × LiveAggregate × Bool :=
  if r.txs < w.txs ∨ r.bytes < w.bytes then
    ({ w with failed := true }, agg, false)
  else
    ({ txs := r.txs, bytes := r.bytes, failed := w.failed },
     { totalTxs := agg.totalTxs + (r.txs - w.txs),
       totalBytes := agg.totalBytes + (r.bytes - w.bytes) },
     true)

/-- Modelled from the spec: the reports of one worker are delivered and
merged in the order sent (single ordered channel per worker). -/
def mergeReports (w : WorkerRecord) (agg : LiveAggregate) :
    List StatsReport → WorkerRecord × LiveAggregate
  | [] => (w, agg)
  | r :: rs =>
    let s := mergeReport w agg r
    mergeReports s.1 s.2.1 rs

/-- C3: merging any sequence of one worker's reports, every accepted
report's counters are ≥ the previously recorded ones; a report with a
request count lower than its predecessor's is rejected, marks the worker
failed, and leaves the aggregate untouched; and the live aggregate
counters are monotonically non-decreasing along the whole sequence. -/
theorem mergeReport_monotonic :
    (∀ w agg r, (mergeReport w agg r).2.2 = true →
      w.txs ≤ r.txs ∧ w.bytes ≤ r.bytes ∧
      (mergeReport w agg r).1.txs = r.txs ∧ (mergeReport w agg r).1.bytes = r.bytes) ∧
    (∀ w agg r, r.txs < w.txs →
      (mergeReport w agg r).2.2 = false ∧ (mergeReport w agg r).1.failed = true ∧
      (mergeReport w agg r).2.1 = agg) ∧
    (∀ w agg rs, agg.totalTxs ≤ (mergeReports w agg rs).2.totalTxs ∧
      agg.totalBytes ≤ (mergeReports w agg rs).2.totalBytes) := by
  have hstep : ∀ w agg r, agg.totalTxs ≤ (mergeReport w agg r).2.1.totalTxs ∧
      agg.totalBytes ≤ (mergeReport w agg r).2.1.totalBytes := by
    intro w agg r
    unfold mergeReport
    by_cases h : r.txs < w.txs ∨ r.bytes < w.bytes
    · rw [if_pos h]
      exact ⟨le_refl _, le_refl _⟩
    · rw [if_neg h]
      exact ⟨Nat.le_add_right _ _, Nat.le_add_right _ _⟩
  refine ⟨fun w agg r hacc => ?_, fun w agg r hlt => ?_, fun w agg rs => ?_⟩
  · unfold mergeReport at hacc ⊢
    by_cases h : r.txs < w.txs ∨ r.bytes < w.bytes
    · rw [if_pos h] at hacc
      simp at hacc
    · rw [if_neg h] at *
      push_neg at h
      exact ⟨h.1, h.2, rfl, rfl⟩
  · unfold mergeReport
    rw [if_pos (Or.inl hlt)]
    exact ⟨rfl, rfl, rfl⟩
  · induction rs generalizing w agg with
    | nil => exact ⟨le_refl _, le_refl _⟩
    | cons r rs ih =>
      simp only [mergeReports]
      have h1 := hstep w agg r
      have h2 := ih (mergeReport w agg r).1 (mergeReport w agg r).2.1
      exact ⟨le_trans h1.1 h2.1, le_trans h1.2 h2.2⟩

/-- Witness for `mergeReport_monotonic`: a report with a lower request
count than its predecessor's is rejected and fails the worker. -/
theorem mergeReport_monotonic_witness :
    (mergeReport ⟨5, 10, false⟩ ⟨5, 10⟩ ⟨3, 10⟩).2.2 = false ∧
    (mergeReport ⟨5, 10, false⟩ ⟨5, 10⟩ ⟨3, 10⟩).1.failed = true ∧
    (mergeReport ⟨5, 10, false⟩ ⟨5, 10⟩ ⟨3, 10⟩).2.1 = ⟨5, 10⟩ :=
  mergeReport_monotonic.2.1 ⟨5, 10, false⟩ ⟨5, 10⟩ ⟨3, 10⟩ (by decide)

end Coordinator

namespace ITest

/-! ## Integration-test CSV statistics parser (`parseStats`) -/

/-- One pass of `parseStats`'s row loop on a single CSV record.  A record
is a slice of strings; a zero-column record is skipped, a non-empty
record needs at least 3 columns, then `record[0]` is switched on as the
label and `record[1]` parsed into the matching field.  `pI32`, `pI64`
and `pF` model `strconv.ParseInt(s, 10, 32)`, `strconv.ParseInt(s, 10, 64)`
and `strconv.ParseFloat(s, 64)`, kept abstract: the claim concerns the
loop structure, not the numeral grammar. -/
def parseRecord {F : Type} (pI32 pI64 : String → Option Int) (pF : String → Option F)
    (stats : AggregateStats F) (record : List String) : Option (AggregateStats F) :=
  if record.length = 0 then some stats
  else if record.length < 3 then none
  else if record.getD 0 "" = "total_txs" then
    (pI32 (record.getD 1 "")).map (fun v => { stats with TotalTxs := v })
  else if record.getD 0 "" = "total_time" then
    (pF (record.getD 1 "")).map (fun v => { stats with TotalTimeSeconds := v })
  else if record.getD 0 "" = "total_bytes" then
    (pI64 (record.getD 1 "")).map (fun v => { stats with TotalBytes := v })
  else if record.getD 0 "" = "avg_tx_rate" then
    (pF (record.getD 1 "")).map (fun v => { stats with AvgTxRate := v })
  else if record.getD 0 "" = "avg_data_rate" then
    (pF (record.getD 1 "")).map (fun v => { stats with AvgDataRate := v })
  else some stats

/-- The `for _, record := range records` loop of `parseStats`, threading
the partially filled record and stopping at the first error. -/
def parseStatsLoop {F : Type} (pI32 pI64 : String → Option Int) (pF : String → Option F)
    (stats : AggregateStats F) : List (List String) → Option (AggregateStats F)
  | [] => some stats
  | r :: rs =>
    match parseRecord pI32 pI64 pF stats r with
    | none => none
    | some s => parseStatsLoop pI32 pI64 pF s rs

/-- The zero value `&loadtest.AggregateStats{}` the loop starts from. -/
def emptyStats {F : Type} (fzero : F) : AggregateStats F :=
  ⟨0, fzero, 0, fzero, fzero⟩

/-- `parseStats` after `reader.ReadAll()`: at least 3 records are
required, then the row loop runs. -/
def parseStats {F : Type} (pI32 pI64 : String → Option Int) (pF : String → Option F)
    (fzero : F) (records : List (List String)) : Option (AggregateStats F) :=
  if records.length < 3 then none
  else parseStatsLoop pI32 pI64 pF (emptyStats fzero) records

/-- The five labelled fields of the aggregate-stats CSV. -/
inductive StatField where
  | txs | time | bytes | txRate | dataRate

/-- The label-to-field dispatch of `parseStats`'s `switch record[0]`. -/
def labelField (lbl : String) : Option StatField :=
  if lbl = "total_txs" then some StatField.txs
  else if lbl = "total_time" then some StatField.time
  else if lbl = "total_bytes" then some StatField.bytes
  else if lbl = "avg_tx_rate" then some StatField.txRate
  else if lbl = "avg_data_rate" then some StatField.dataRate
  else none

/-- Parsing a column-1 string for a given field, as an update function on
the accumulating record. -/
def fieldParse {F : Type} (pI32 pI64 : String → Option Int) (pF : String → Option F) :
    StatField → String → Option (AggregateStats F → AggregateStats F)
  | StatField.txs, fld => (pI32 fld).map (fun v s => { s with TotalTxs := v })
  | StatField.time, fld => (pF fld).map (fun v s => { s with TotalTimeSeconds := v })
  | StatField.bytes, fld => (pI64 fld).map (fun v s => { s with TotalBytes := v })
  | StatField.txRate, fld => (pF fld).map (fun v s => { s with AvgTxRate := v })
  | StatField.dataRate, fld => (pF fld).map (fun v s => { s with AvgDataRate := v })

/-- `parseRecord` rephrased through `labelField`/`fieldParse`. -/
theorem parseRecord_eq {F : Type} (pI32 pI64 : String → Option Int)
    (pF : String → Option F) (stats : AggregateStats F) (record : List String) :
    parseRecord pI32 pI64 pF stats record =
      if record.length = 0 then some stats
      else if record.length < 3 then none
      else
        match labelField (record.getD 0 "") with
        | none => some stats
        | some f =>
          (fieldParse pI32 pI64 pF f (record.getD 1 "")).map (fun u => u stats) := by
  unfold parseRecord labelField
  by_cases h0 : record.length = 0
  · rw [if_pos h0, if_pos h0]
  rw [if_neg h0, if_neg h0]
  by_cases h3 : record.length < 3
  · rw [if_pos h3, if_pos h3]
  rw [if_neg h3, if_neg h3]
  by_cases l1 : record.getD 0 "" = "total_txs"
  · rw [if_pos l1, if_pos l1]
    simp only [fieldParse]
    cases pI32 (record.getD 1 "") <;> rfl
  rw [if_neg l1, if_neg l1]
  by_cases l2 : record.getD 0 "" = "total_time"
  · rw [if_pos l2, if_pos l2]
    simp only [fieldParse]
    cases pF (record.getD 1 "") <;> rfl
  rw [if_neg l2, if_neg l2]
  by_cases l3 : record.getD 0 "" = "total_bytes"
  · rw [if_pos l3, if_pos l3]
    simp only [fieldParse]
    cases pI64 (record.getD 1 "") <;> rfl
  rw [if_neg l3, if_neg l3]
  by_cases l4 : record.getD 0 "" = "avg_tx_rate"
  · rw [if_pos l4, if_pos l4]
    simp only [fieldParse]
    cases pF (record.getD 1 "") <;> rfl
  rw [if_neg l4, if_neg l4]
  by_cases l5 : record.getD 0 "" = "avg_data_rate"
  · rw [if_pos l5, if_pos l5]
    simp only [fieldParse]
    cases pF (record.getD 1 "") <;> rfl
  rw [if_neg l5, if_neg l5]

section
variable {F : Type} (pI32 pI64 : String → Option Int) (pF : String → Option F)

/-- Labels dispatch injectively: two labels mapped to the same field are
equal. -/
theorem labelField_inj (l1 l2 : String) (f : StatField)
    (h1 : labelField l1 = some f) (h2 : labelField l2 = some f) : l1 = l2 := by
  have key : ∀ (l : String) (fx : StatField), labelField l = some fx →
      l = match fx with
        | StatField.txs => "total_txs"
        | StatField.time => "total_time"
        | StatField.bytes => "total_bytes"
        | StatField.txRate => "avg_tx_rate"
        | StatField.dataRate => "avg_data_rate" := by
    intro l fx h
    unfold labelField at h
    split_ifs at h <;>
      first
      | (obtain rfl := Option.some_inj.mp h; simp_all)
      | exact absurd h (by simp)
  rw [key l1 f h1, key l2 f h2]

/-- Update functions for two different fields commute. -/
theorem fieldParse_comm (f1 f2 : StatField) (hne : f1 ≠ f2) (fld1 fld2 : String)
    (u1 u2 : AggregateStats F → AggregateStats F)
    (hu1 : fieldParse pI32 pI64 pF f1 fld1 = some u1)
    (hu2 : fieldParse pI32 pI64 pF f2 fld2 = some u2) (s : AggregateStats F) :
    u1 (u2 s) = u2 (u1 s) := by
  cases f1 <;> cases f2 <;>
    first
    | exact absurd rfl hne
    | (simp only [fieldParse, Option.map_eq_some'] at hu1 hu2
       obtain ⟨v1, -, rfl⟩ := hu1
       obtain ⟨v2, -, rfl⟩ := hu2
       rfl)

/-- A zero-column record, or one with an unknown label, leaves the
accumulator untouched. -/
theorem parseRecord_skip (r : List String)
    (hr : r.length = 0 ∨ (3 ≤ r.length ∧ labelField (r.getD 0 "") = none))
    (s : AggregateStats F) : parseRecord pI32 pI64 pF s r = some s := by
  rw [parseRecord_eq]
  rcases hr with h0 | ⟨h3, hf⟩
  · rw [if_pos h0]
  · rw [if_neg (by omega), if_neg (by omega), hf]

/-- A non-empty record with fewer than 3 columns aborts the parse. -/
theorem parseRecord_err (r : List String) (h0 : r.length ≠ 0) (h3 : r.length < 3)
    (s : AggregateStats F) : parseRecord pI32 pI64 pF s r = none := by
  rw [parseRecord_eq, if_neg h0, if_pos h3]

/-- A well-formed labelled record applies its field's update. -/
theorem parseRecord_field (r : List String) (f : StatField) (h3 : 3 ≤ r.length)
    (hf : labelField (r.getD 0 "") = some f) (s : AggregateStats F) :
    parseRecord pI32 pI64 pF s r =
      (fieldParse pI32 pI64 pF f (r.getD 1 "")).map (fun u => u s) := by
  rw [parseRecord_eq, if_neg (by omega), if_neg (by omega), hf]
end

/-- Two passes of the row loop commute whenever the two records cannot
carry the same label (in particular whenever either is blank). -/
theorem parseRecord_comm {F : Type} (pI32 pI64 : String → Option Int)
    (pF : String → Option F) (r1 r2 : List String)
    (hne : r1 ≠ [] → r2 ≠ [] → r1.getD 0 "" ≠ r2.getD 0 "")
    (stats : AggregateStats F) :
    (parseRecord pI32 pI64 pF stats r1).bind (fun s => parseRecord pI32 pI64 pF s r2) =
    (parseRecord pI32 pI64 pF stats r2).bind (fun s => parseRecord pI32 pI64 pF s r1) := by
  have skip_comm : ∀ (a b : List String),
      (∀ s : AggregateStats F, parseRecord pI32 pI64 pF s a = some s) →
      (parseRecord pI32 pI64 pF stats a).bind (fun s => parseRecord pI32 pI64 pF s b) =
      (parseRecord pI32 pI64 pF stats b).bind (fun s => parseRecord pI32 pI64 pF s a) := by
    intro a b hs
    rw [hs stats]
    cases h : parseRecord pI32 pI64 pF stats b with
    | none => simp [h]
    | some s => simp [h, hs s]
  have err_comm : ∀ (a b : List String),
      (∀ s : AggregateStats F, parseRecord pI32 pI64 pF s a = none) →
      (parseRecord pI32 pI64 pF stats a).bind (fun s => parseRecord pI32 pI64 pF s b) =
      (parseRecord pI32 pI64 pF stats b).bind (fun s => parseRecord pI32 pI64 pF s a) := by
    intro a b hn
    rw [hn stats]
    cases h : parseRecord pI32 pI64 pF stats b with
    | none => simp [h]
    | some s => simp [h, hn s]
  by_cases e1 : r1.length = 0
  · exact skip_comm r1 r2 (fun s => parseRecord_skip pI32 pI64 pF r1 (Or.inl e1) s)
  by_cases e2 : r2.length = 0
  · exact (skip_comm r2 r1 (fun s => parseRecord_skip pI32 pI64 pF r2 (Or.inl e2) s)).symm
  by_cases s1 : r1.length < 3
  · exact err_comm r1 r2 (fun s => parseRecord_err pI32 pI64 pF r1 e1 s1 s)
  by_cases s2 : r2.length < 3
  · exact (err_comm r2 r1 (fun s => parseRecord_err pI32 pI64 pF r2 e2 s2 s)).symm
  cases hf1 : labelField (r1.getD 0 "") with
  | none =>
    exact skip_comm r1 r2
      (fun s => parseRecord_skip pI32 pI64 pF r1 (Or.inr ⟨by omega, hf1⟩) s)
  | some f1 =>
    cases hf2 : labelField (r2.getD 0 "") with
    | none =>
      exact (skip_comm r2 r1
        (fun s => parseRecord_skip pI32 pI64 pF r2 (Or.inr ⟨by omega, hf2⟩) s)).symm
    | some f2 =>
      have hr1ne : r1 ≠ [] := fun h => e1 (by rw [h]; rfl)
      have hr2ne : r2 ≠ [] := fun h => e2 (by rw [h]; rfl)
      have hlbl := hne hr1ne hr2ne
      have hf12 : f1 ≠ f2 := by
        intro hEq
        exact hlbl (labelField_inj (r1.getD 0 "") (r2.getD 0 "") f2 (hEq ▸ hf1) hf2)
      simp only [parseRecord_field pI32 pI64 pF r1 f1 (by omega) hf1,
                 parseRecord_field pI32 pI64 pF r2 f2 (by omega) hf2]
      cases hu1 : fieldParse pI32 pI64 pF f1 (r1.getD 1 "") with
      | none =>
        cases hu2 : fieldParse pI32 pI64 pF f2 (r2.getD 1 "") with
        | none => simp
        | some u2 => simp
      | some u1 =>
        cases hu2 : fieldParse pI32 pI64 pF f2 (r2.getD 1 "") with
        | none => simp
        | some u2 =>
          simp only [Option.map_some', Option.some_bind]
          exact congrArg some
            (fieldParse_comm pI32 pI64 pF f2 f1 (Ne.symm hf12) (r2.getD 1 "")
              (r1.getD 1 "") u2 u1 hu2 hu1 stats)

/-- Two rows can never carry the same label (vacuously true when either
row is blank). -/
def distinctLabels (r1 r2 : List String) : Prop :=
  r1 ≠ [] → r2 ≠ [] → r1.getD 0 "" ≠ r2.getD 0 ""

/-- `distinctLabels` is symmetric. -/
theorem distinctLabels_symm : ∀ {a b : List String},
    distinctLabels a b → distinctLabels b a :=
  fun h hb ha => (h ha hb).symm

/-- One unfolding of the row loop, as an `Option.bind`. -/
theorem parseStatsLoop_cons {F : Type} (pI32 pI64 : String → Option Int)
    (pF : String → Option F) (r : List String) (rs : List (List String))
    (stats : AggregateStats F) :
    parseStatsLoop pI32 pI64 pF stats (r :: rs) =
      (parseRecord pI32 pI64 pF stats r).bind
        (fun s => parseStatsLoop pI32 pI64 pF s rs) := by
  cases h : parseRecord pI32 pI64 pF stats r <;> simp [parseStatsLoop, h]

/-- The row loop is invariant under permutations of rows with pairwise
distinct labels. -/
theorem parseStatsLoop_perm {F : Type} (pI32 pI64 : String → Option Int)
    (pF : String → Option F) {recs recs' : List (List String)}
    (hperm : recs.Perm recs') :
    recs.Pairwise distinctLabels →
    ∀ stats : AggregateStats F,
      parseStatsLoop pI32 pI64 pF stats recs =
      parseStatsLoop pI32 pI64 pF stats recs' := by
  induction hperm with
  | nil => intro _ _; rfl
  | cons x hp ih =>
    intro hpw stats
    rw [parseStatsLoop_cons, parseStatsLoop_cons]
    cases h : parseRecord pI32 pI64 pF stats x with
    | none => rfl
    | some s =>
      simp only [Option.some_bind]
      exact ih (List.Pairwise.of_cons hpw) s
  | swap x y l =>
    intro hpw stats
    have hxy : distinctLabels y x :=
      (List.pairwise_cons.mp hpw).1 x (List.mem_cons_self x l)
    rw [parseStatsLoop_cons, parseStatsLoop_cons]
    simp only [parseStatsLoop_cons pI32 pI64 pF x l,
      parseStatsLoop_cons pI32 pI64 pF y l]
    rw [← Option.bind_assoc, ← Option.bind_assoc,
      parseRecord_comm pI32 pI64 pF y x hxy stats]
  | trans h₁ _ ih₁ ih₂ =>
    intro hpw stats
    rw [ih₁ hpw stats,
      ih₂ ((h₁.pairwise_iff distinctLabels_symm).mp hpw) stats]

/-- The row loop ignores blank (zero-column) rows. -/
theorem parseStatsLoop_filter {F : Type} (pI32 pI64 : String → Option Int)
    (pF : String → Option F) (rs : List (List String)) :
    ∀ stats : AggregateStats F,
      parseStatsLoop pI32 pI64 pF stats (rs.filter (fun r => !r.isEmpty)) =
      parseStatsLoop pI32 pI64 pF stats rs := by
  induction rs with
  | nil => intro _; rfl
  | cons r rs ih =>
    intro stats
    by_cases hr : r.isEmpty
    · have hrnil : r = [] := List.isEmpty_iff.mp hr
      rw [List.filter_cons, parseStatsLoop_cons, hrnil]
      have hskip : parseRecord pI32 pI64 pF stats [] = some stats :=
        parseRecord_skip pI32 pI64 pF [] (Or.inl rfl) stats
      rw [hskip]
      simp only [hrnil, List.isEmpty_nil, Bool.not_true, Bool.false_eq_true,
        if_false, Option.some_bind]
      exact ih stats
    · rw [List.filter_cons]
      simp only [hr, Bool.not_false, if_true, Bool.not_eq_true']
      rw [parseStatsLoop_cons, parseStatsLoop_cons]
      cases h : parseRecord pI32 pI64 pF stats r with
      | none => rfl
      | some s =>
        simp only [Option.some_bind]
        exact ih s

/-- C7: on at least 3 records whose non-empty rows have at least 3
columns and pairwise distinct labels, `parseStats` returns the same
result on every permutation of the records, and the row loop ignores
blank (zero-column) rows: the parse depends only on which labelled rows
are present. -/
theorem parseStats_perm_invariant {F : Type} (pI32 pI64 : String → Option Int)
    (pF : String → Option F) (fzero : F) (recs recs' : List (List String))
    (hlen : 3 ≤ recs.length)
    (hcols : ∀ r ∈ recs, r ≠ [] → 3 ≤ r.length)
    (hdist : recs.Pairwise distinctLabels)
    (hperm : recs.Perm recs') :
    parseStats pI32 pI64 pF fzero recs' = parseStats pI32 pI64 pF fzero recs ∧
    parseStatsLoop pI32 pI64 pF (emptyStats fzero) (recs.filter (fun r => !r.isEmpty)) =
      parseStatsLoop pI32 pI64 pF (emptyStats fzero) recs := by
  refine ⟨?_, parseStatsLoop_filter pI32 pI64 pF recs (emptyStats fzero)⟩
  unfold parseStats
  have hlen' : recs'.length = recs.length := (hperm.length_eq).symm
  rw [hlen']
  rw [if_neg (by omega), if_neg (by omega)]
  exact (parseStatsLoop_perm pI32 pI64 pF hperm hdist (emptyStats fzero)).symm

/-- Witness for `parseStats_perm_invariant` on a concrete 3-record CSV
with one blank row and a transposed permutation. -/
theorem parseStats_perm_invariant_witness :
    parseStats (fun s => some 1) (fun s => some 2) (fun s => some (3:Int)) 0
        [[], ["total_time", "5", "y"], ["total_txs", "50", "x"]] =
      parseStats (fun s => some 1) (fun s => some 2) (fun s => some (3:Int)) 0
        [["total_txs", "50", "x"], [], ["total_time", "5", "y"]] :=
  (parseStats_perm_invariant (fun s => some 1) (fun s => some 2)
    (fun s => some (3:Int)) 0
    [["total_txs", "50", "x"], [], ["total_time", "5", "y"]]
    [[], ["total_time", "5", "y"], ["total_txs", "50", "x"]]
    (by decide)
    (by decide)
    (by
      refine List.Pairwise.cons ?_ (List.Pairwise.cons ?_ (List.pairwise_singleton _ _))
      · intro r hr
        intro h1 h2
        rcases List.mem_cons.mp hr with rfl | hr
        · exact absurd rfl h2
        · rcases List.mem_cons.mp hr with rfl | hr
          · decide
          · simp at hr
      · intro r hr h1 h2
        exact absurd rfl h1)
    (by decide)).1

end ITest
